import Mathlib

/-!
Verification of the tic-tac-toe core in `src/Application.cpp`.

The board is a 1D array of 9 ints (0 empty, 1 = X, 2 = O); the process-wide
state also holds the current player, the game-over flag, the winner value and
the AI toggle.  The embedding below translates the helpers `CheckWinner`,
`CheckDraw`, `FindImmediateMove`, `AIMove`, `ResetGame` and the click-handling
path of `DrawBoardUI` into pure Lean functions; the random draw inside
`AIMove` becomes an explicit parameter `r`, used exactly where
`dist(rng)` is used (an index into the vector of empty cells).
-/

namespace ClassGame

set_option maxRecDepth 100000

/-- A board maps each of the 9 cell indices to 0 (empty), 1 (X) or 2 (O);
`board` in the source is `std::array<int, 9>`. -/
abbrev Board : Type := Fin 9 → ℕ

/-- One of the 8 fixed winning triples, a row of `WINS[8][3]` in the source. -/
abbrev Line : Type := Fin 9 × Fin 9 × Fin 9

/-- The table `WINS`: 3 rows, then 3 columns, then 2 diagonals. -/
def WINS : List Line :=
  [(0,1,2), (3,4,5), (6,7,8),
   (0,3,6), (1,4,7), (2,5,8),
   (0,4,8), (2,4,6)]

/-- Writing value `v` into cell `i` (`board[i] = v`). -/
def setCell (b : Board) (i : Fin 9) (v : ℕ) : Board :=
  Function.update b i v

/-- The process-wide mutable state of `Application.cpp`: `board`,
`currentPlayer`, `gameOver`, `winner`, `aiEnabled`. -/
structure GameState where
  board : Board
  currentPlayer : ℕ
  gameOver : Bool
  winner : ℕ
  aiEnabled : Bool

/-- Model of `ResetGame`: clears the board and resets turn order, game-over flag and
winner; it does not touch `aiEnabled`. -/
def resetGame (s : GameState) : GameState :=
  { board := fun _ => 0, currentPlayer := 1, gameOver := false, winner := 0,
    aiEnabled := s.aiEnabled }

/-- The state after static initialization and `GameStartUp` (which seeds the
RNG and calls `ResetGame`); `aiEnabled` is initialized to `true`. -/
def initState : GameState :=
  { board := fun _ => 0, currentPlayer := 1, gameOver := false, winner := 0,
    aiEnabled := true }

/-- A uniform non-empty line, the per-line test of `CheckWinner`:
`a != 0 && a == b && b == c`. -/
def lineWin (b : Board) (l : Line) : Prop :=
  b l.1 ≠ 0 ∧ b l.1 = b l.2.1 ∧ b l.2.1 = b l.2.2

instance (b : Board) (l : Line) : Decidable (lineWin b l) :=
  inferInstanceAs (Decidable (b l.1 ≠ 0 ∧ b l.1 = b l.2.1 ∧ b l.2.1 = b l.2.2))

/-- The loop of `CheckWinner`, scanning a list of lines. -/
def checkWinnerAux (b : Board) : List Line → ℕ
  | [] => 0
  | l :: ls => if lineWin b l then b l.1 else checkWinnerAux b ls

/-- Model of `CheckWinner`: the common mark of the first uniform non-empty line of
`WINS`, `0` if none. -/
def checkWinner (b : Board) : ℕ := checkWinnerAux b WINS

/-- Model of `CheckDraw`: `false` if there is a winner or an empty cell, else `true`. -/
def checkDraw (b : Board) : Bool :=
  if checkWinner b ≠ 0 then false
  else (List.finRange 9).all fun i => b i != 0

/-- The per-line counts of `FindImmediateMove`: how many of the three cells of
`l` hold the value `t` (`cntT` with `t = target`, `cntE` with `t = 0`). -/
def cntOf (b : Board) (t : ℕ) (l : Line) : ℕ :=
  (if b l.1 = t then 1 else 0) + (if b l.2.1 = t then 1 else 0) +
    (if b l.2.2 = t then 1 else 0)

/-- A line with exactly two cells holding `t` and one empty cell: the
condition `cntT == 2 && cntE == 1` of `FindImmediateMove`. -/
def isPair (b : Board) (t : ℕ) (l : Line) : Prop :=
  cntOf b t l = 2 ∧ cntOf b 0 l = 1

instance (b : Board) (t : ℕ) (l : Line) : Decidable (isPair b t l) :=
  inferInstanceAs (Decidable (cntOf b t l = 2 ∧ cntOf b 0 l = 1))

/-- The loop of `FindImmediateMove`: the first line of `ls` with exactly two
cells equal to `target` and one empty cell yields its empty cell, probing the
line's cells in order `a`, `b`, `c`. -/
def findImmediateMoveAux (b : Board) (target : ℕ) : List Line → Option (Fin 9)
  | [] => none
  | l :: ls =>
    if isPair b target l then
      if b l.1 = 0 then some l.1
      else if b l.2.1 = 0 then some l.2.1
      else if b l.2.2 = 0 then some l.2.2
      else findImmediateMoveAux b target ls
    else findImmediateMoveAux b target ls

/-- Model of `FindImmediateMove` over the full `WINS` table; `none` models the `false`
return, `some m` models `true` with `moveOut = m`. -/
def findImmediateMove (b : Board) (target : ℕ) : Option (Fin 9) :=
  findImmediateMoveAux b target WINS

/-- The board produced by the move-selection part of `AIMove`: win now, else
block X, else play a random empty cell (`r` stands for the value drawn from
`dist(rng)`, reduced into the range `0 .. empty.size() - 1`). -/
def aiBoard (r : ℕ) (b : Board) : Board :=
  match findImmediateMove b 2 with
  | some m => setCell b m 2
  | none =>
    match findImmediateMove b 1 with
    | some m => setCell b m 2
    | none =>
      let empty := (List.finRange 9).filter fun i => b i == 0
      if h : 0 < empty.length then
        setCell b (empty.get ⟨r % empty.length, Nat.mod_lt r h⟩) 2
      else b

/-- Model of `AIMove`: guard on `gameOver`, select and apply the move, recompute
`winner` and `gameOver`, and hand the turn back to the human when the game
goes on. -/
def aiMove (r : ℕ) (s : GameState) : GameState :=
  if s.gameOver then s
  else
    let b1 := aiBoard r s.board
    let w := checkWinner b1
    let go := (w != 0) || checkDraw b1
    { s with board := b1, winner := w, gameOver := go,
             currentPlayer := if go then s.currentPlayer else 1 }

/-- The click handler of one cell button in `DrawBoardUI`: the button is
disabled when the game is over, the cell is used, or it is not the human's
turn while the AI is enabled; an enabled click places the current player's
mark, recomputes the outcome and either lets the AI respond at once or
toggles the turn. -/
def clickCell (r : ℕ) (idx : Fin 9) (s : GameState) : GameState :=
  let disabled :=
    s.gameOver || (s.board idx != 0) || (s.aiEnabled && (s.currentPlayer != 1))
  if disabled then s
  else
    let b1 := setCell s.board idx s.currentPlayer
    let w := checkWinner b1
    let go := (w != 0) || checkDraw b1
    let s1 : GameState :=
      { s with board := b1, winner := w, gameOver := go }
    if go then s1
    else if s.aiEnabled then
      aiMove r { s1 with currentPlayer := 2 }
    else
      { s1 with currentPlayer := if s.currentPlayer = 1 then 2 else 1 }

/-- The states the running program can be in: the initial state, closed under
cell clicks (which embed the AI response), the Reset button and the
"Play vs AI" checkbox. -/
inductive Reachable : GameState → Prop
  | init : Reachable initState
  | click (r : ℕ) (idx : Fin 9) {s : GameState} :
      Reachable s → Reachable (clickCell r idx s)
  | reset {s : GameState} : Reachable s → Reachable (resetGame s)
  | toggle {s : GameState} :
      Reachable s → Reachable { s with aiEnabled := !s.aiEnabled }

/-- The first empty cell of a line in the source's probe order `a`, `b`, `c`. -/
def firstEmpty (b : Board) (l : Line) : Fin 9 :=
  if b l.1 = 0 then l.1 else if b l.2.1 = 0 then l.2.1 else l.2.2

/-- The board with line `l` uniformly set to `m` and all other cells empty. -/
def lineBoard (l : Line) (m : ℕ) : Board :=
  fun i => if i = l.1 ∨ i = l.2.1 ∨ i = l.2.2 then m else 0

/-! ### Lemmas about the rule evaluator -/

lemma checkWinnerAux_ne_zero {b : Board} {ls : List Line}
    (h : checkWinnerAux b ls ≠ 0) :
    ∃ l ∈ ls, lineWin b l ∧ checkWinnerAux b ls = b l.1 := by
  induction ls with
  | nil => exact absurd rfl h
  | cons l ls ih =>
    by_cases hw : lineWin b l
    · exact ⟨l, List.mem_cons_self _ _, hw, by simp [checkWinnerAux, if_pos hw]⟩
    · rw [checkWinnerAux, if_neg hw] at h ⊢
      obtain ⟨l', hl', hw', he⟩ := ih h
      exact ⟨l', List.mem_cons_of_mem _ hl', hw', he⟩

lemma checkWinnerAux_eq_zero_of {b : Board} {ls : List Line}
    (h : ∀ l ∈ ls, ¬ lineWin b l) : checkWinnerAux b ls = 0 := by
  induction ls with
  | nil => rfl
  | cons l ls ih =>
    rw [checkWinnerAux, if_neg (h l (List.mem_cons_self _ _))]
    exact ih fun l' hl' => h l' (List.mem_cons_of_mem _ hl')

lemma checkDraw_iff (b : Board) :
    checkDraw b = true ↔ checkWinner b = 0 ∧ ∀ i, b i ≠ 0 := by
  unfold checkDraw
  by_cases h : checkWinner b = 0
  · simp [h, List.all_eq_true, List.mem_finRange]
  · simp [h]

/-! ### Lemmas about `FindImmediateMove` -/

lemma isPair_empty {b : Board} {t : ℕ} {l : Line} (hp : isPair b t l) :
    b l.1 = 0 ∨ b l.2.1 = 0 ∨ b l.2.2 = 0 := by
  obtain ⟨-, h0⟩ := hp
  by_contra hc
  push_neg at hc
  simp [cntOf, hc.1, hc.2.1, hc.2.2] at h0

lemma firstEmpty_zero {b : Board} {l : Line}
    (h : b l.1 = 0 ∨ b l.2.1 = 0 ∨ b l.2.2 = 0) : b (firstEmpty b l) = 0 := by
  unfold firstEmpty
  split_ifs with h1 h2 <;> tauto

lemma firstEmpty_mem (b : Board) (l : Line) :
    firstEmpty b l = l.1 ∨ firstEmpty b l = l.2.1 ∨ firstEmpty b l = l.2.2 := by
  unfold firstEmpty
  split_ifs <;> simp

lemma fimAux_cons (b : Board) (t : ℕ) (l : Line) (ls : List Line) :
    findImmediateMoveAux b t (l :: ls) =
      if isPair b t l then some (firstEmpty b l)
      else findImmediateMoveAux b t ls := by
  by_cases hp : isPair b t l
  · rw [findImmediateMoveAux, if_pos hp, if_pos hp]
    unfold firstEmpty
    split_ifs with h1 h2 h3
    · rfl
    · rfl
    · rfl
    · rcases isPair_empty hp with h | h | h <;> contradiction
  · rw [findImmediateMoveAux, if_neg hp, if_neg hp]

lemma fimAux_some {b : Board} {t : ℕ} {m : Fin 9} {ls : List Line}
    (h : findImmediateMoveAux b t ls = some m) :
    b m = 0 ∧ ∃ l ∈ ls, isPair b t l ∧ (m = l.1 ∨ m = l.2.1 ∨ m = l.2.2) := by
  induction ls with
  | nil => exact absurd h (by simp [findImmediateMoveAux])
  | cons l ls ih =>
    rw [fimAux_cons] at h
    by_cases hp : isPair b t l
    · rw [if_pos hp, Option.some_inj] at h
      subst h
      refine ⟨firstEmpty_zero (isPair_empty hp), l, List.mem_cons_self _ _, hp, ?_⟩
      have := firstEmpty_mem b l
      tauto
    · rw [if_neg hp] at h
      obtain ⟨hz, l', hl', hrest⟩ := ih h
      exact ⟨hz, l', List.mem_cons_of_mem _ hl', hrest⟩

lemma fimAux_none {b : Board} {t : ℕ} {ls : List Line}
    (h : findImmediateMoveAux b t ls = none) : ∀ l ∈ ls, ¬ isPair b t l := by
  induction ls with
  | nil => simp
  | cons l ls ih =>
    rw [fimAux_cons] at h
    by_cases hp : isPair b t l
    · rw [if_pos hp] at h; cases h
    · rw [if_neg hp] at h
      intro l' hl'
      rcases List.mem_cons.mp hl' with rfl | hmem
      · exact hp
      · exact ih h l' hmem

lemma fimAux_none_of {b : Board} {t : ℕ} {ls : List Line}
    (h : ∀ l ∈ ls, ¬ isPair b t l) : findImmediateMoveAux b t ls = none := by
  induction ls with
  | nil => rfl
  | cons l ls ih =>
    rw [fimAux_cons, if_neg (h l (List.mem_cons_self _ _))]
    exact ih fun l' hl' => h l' (List.mem_cons_of_mem _ hl')

lemma fimAux_isSome {b : Board} {t : ℕ} {ls : List Line}
    (h : ∃ l ∈ ls, isPair b t l) :
    ∃ m, findImmediateMoveAux b t ls = some m := by
  cases hf : findImmediateMoveAux b t ls with
  | some m => exact ⟨m, rfl⟩
  | none =>
    obtain ⟨l, hl, hp⟩ := h
    exact absurd hp (fimAux_none hf l hl)

lemma fimAux_eq_find (b : Board) (t : ℕ) (ls : List Line) :
    findImmediateMoveAux b t ls =
      (ls.find? fun l => decide (isPair b t l)).map (firstEmpty b) := by
  induction ls with
  | nil => rfl
  | cons l ls ih =>
    rw [fimAux_cons]
    by_cases hp : isPair b t l
    · rw [if_pos hp, List.find?_cons_of_pos _ (by simpa using hp)]
      rfl
    · rw [if_neg hp, List.find?_cons_of_neg _ (by simpa using hp)]
      exact ih

lemma firstEmpty_unique {b : Board} {t : ℕ} {l : Line} (hp : isPair b t l) :
    ∀ c : Fin 9, (c = l.1 ∨ c = l.2.1 ∨ c = l.2.2) → b c = 0 →
      c = firstEmpty b l := by
  obtain ⟨-, h0⟩ := hp
  intro c hc hc0
  unfold cntOf at h0
  unfold firstEmpty
  rcases hc with rfl | rfl | rfl <;> split_ifs at h0 ⊢ <;> simp_all

/-- On a line with two 2s and one empty cell, the three cell values are
determined up to the position of the empty cell. -/
lemma isPair_cases {b : Board} {l : Line} (hp : isPair b 2 l) :
    (b l.1 = 0 ∧ b l.2.1 = 2 ∧ b l.2.2 = 2) ∨
    (b l.1 = 2 ∧ b l.2.1 = 0 ∧ b l.2.2 = 2) ∨
    (b l.1 = 2 ∧ b l.2.1 = 2 ∧ b l.2.2 = 0) := by
  obtain ⟨h2, h0⟩ := hp
  unfold cntOf at h2 h0
  split_ifs at h2 h0 <;> omega

lemma isPair_complete {b : Board} {l : Line} {m : Fin 9}
    (hp : isPair b 2 l) (hm : b m = 0)
    (hmem : m = l.1 ∨ m = l.2.1 ∨ m = l.2.2) :
    setCell b m 2 l.1 = 2 ∧ setCell b m 2 l.2.1 = 2 ∧ setCell b m 2 l.2.2 = 2 := by
  rcases isPair_cases hp with hcase | hcase | hcase <;>
    rcases hmem with rfl | rfl | rfl <;>
    obtain ⟨ha, hb2, hc⟩ := hcase <;>
    simp_all [setCell, Function.update_apply]

/-! ### Lemmas about `AIMove` -/

lemma cntOf_zero_of_full {b : Board} (h : ∀ i, b i ≠ 0) (l : Line) :
    cntOf b 0 l = 0 := by
  simp [cntOf, h l.1, h l.2.1, h l.2.2]

lemma mem_emptyList {b : Board} {i : Fin 9} :
    i ∈ (List.finRange 9).filter (fun j => b j == 0) ↔ b i = 0 := by
  simp [List.mem_filter, List.mem_finRange]

/-- On a full board, `FindImmediateMove` fails and the empty-cell vector is
empty, so `AIMove` leaves the board as it is. -/
lemma aiBoard_full {b : Board} (h : ∀ i, b i ≠ 0) (r : ℕ) :
    aiBoard r b = b := by
  have hnp : ∀ t, findImmediateMove b t = none := fun t =>
    fimAux_none_of fun l _ hp => by
      have := hp.2
      rw [cntOf_zero_of_full h] at this
      exact absurd this (by decide)
  have hfilter : (List.finRange 9).filter (fun j => b j == 0) = [] := by
    rw [List.filter_eq_nil_iff]
    intro i _
    simpa using h i
  rw [aiBoard, hnp 2, hnp 1]
  simp [hfilter]

/-- When the board has an empty cell, `aiBoard` writes a 2 into some
previously empty cell. -/
lemma aiBoard_places {b : Board} (r : ℕ) {i : Fin 9} (hi : b i = 0) :
    ∃ j : Fin 9, b j = 0 ∧ aiBoard r b = setCell b j 2 := by
  cases h2 : findImmediateMove b 2 with
  | some m =>
    exact ⟨m, (fimAux_some h2).1, by rw [aiBoard, h2]⟩
  | none =>
    cases h1 : findImmediateMove b 1 with
    | some m =>
      exact ⟨m, (fimAux_some h1).1, by rw [aiBoard, h2, h1]⟩
    | none =>
      have hmem : i ∈ (List.finRange 9).filter (fun j => b j == 0) :=
        mem_emptyList.mpr hi
      have hlen : 0 < ((List.finRange 9).filter (fun j => b j == 0)).length :=
        List.length_pos.mpr (List.ne_nil_of_mem hmem)
      refine ⟨((List.finRange 9).filter (fun j => b j == 0)).get
          ⟨r % _, Nat.mod_lt r hlen⟩, ?_, ?_⟩
      · exact mem_emptyList.mp (List.get_mem _ _ _)
      · rw [aiBoard, h2, h1]
        simp only []
        rw [dif_pos hlen]

/-- The consistency invariant the move paths re-establish: `winner` is the
value `CheckWinner` computes on the current board, and `gameOver` is
`(winner != 0) || CheckDraw()` on it. -/
def Inv (s : GameState) : Prop :=
  s.winner = checkWinner s.board ∧
  s.gameOver = ((s.winner != 0) || checkDraw s.board)

/-- The result of `AIMove` on a state that is not yet over, stated with the
recomputed fields explicit. -/
lemma aiMove_not_over {s : GameState} (r : ℕ) (h : s.gameOver = false) :
    aiMove r s =
      { s with board := aiBoard r s.board,
               winner := checkWinner (aiBoard r s.board),
               gameOver := (checkWinner (aiBoard r s.board) != 0) ||
                 checkDraw (aiBoard r s.board),
               currentPlayer :=
                 if ((checkWinner (aiBoard r s.board) != 0) ||
                     checkDraw (aiBoard r s.board)) then s.currentPlayer
                 else 1 } := by
  rw [aiMove, h]
  simp

lemma inv_initState : Inv initState := by
  constructor <;> decide

lemma inv_resetGame (s : GameState) : Inv (resetGame s) :=
  ⟨rfl, rfl⟩

lemma inv_toggle {s : GameState} (h : Inv s) :
    Inv { s with aiEnabled := !s.aiEnabled } := h

lemma inv_aiMove_not_over (r : ℕ) {s : GameState} (h : s.gameOver = false) :
    Inv (aiMove r s) := by
  rw [aiMove_not_over r h]
  exact ⟨rfl, rfl⟩

lemma inv_aiMove (r : ℕ) {s : GameState} (h : Inv s) : Inv (aiMove r s) := by
  cases hg : s.gameOver
  · exact inv_aiMove_not_over r hg
  · have he : aiMove r s = s := by simp [aiMove, hg]
    rw [he]
    exact h

lemma inv_clickCell (r : ℕ) (idx : Fin 9) {s : GameState} (h : Inv s) :
    Inv (clickCell r idx s) := by
  simp only [clickCell]
  split_ifs with h1 h2 h3 h4
  · exact h
  · exact ⟨rfl, rfl⟩
  · refine inv_aiMove_not_over r ?_
    simpa using h2
  · exact ⟨rfl, rfl⟩
  · exact ⟨rfl, rfl⟩

lemma inv_reachable {s : GameState} (h : Reachable s) : Inv s := by
  induction h with
  | init => exact inv_initState
  | click r idx _ ih => exact inv_clickCell r idx ih
  | reset _ ih => exact inv_resetGame _
  | toggle _ ih => exact inv_toggle ih

/-- Lemma: `AIMove` hands the turn back to the human whenever the game goes on. -/
lemma aiMove_back_to_human (r : ℕ) {s : GameState} (h : s.gameOver = false)
    (hgo : (aiMove r s).gameOver = false) : (aiMove r s).currentPlayer = 1 := by
  rw [aiMove_not_over r h] at hgo ⊢
  simp only at hgo ⊢
  simp [hgo]

/-! ### Concrete states used to instantiate the theorems -/

/-- O on cells 0 and 1, X on cells 3 and 4, rest empty: both players have a
two-in-a-line with the third cell empty. -/
def demoPairBoard : Board := fun i =>
  if i.val = 0 ∨ i.val = 1 then 2 else if i.val = 3 ∨ i.val = 4 then 1 else 0

/-- The state holding `demoPairBoard` right before the AI's response. -/
def demoPairState : GameState :=
  { board := demoPairBoard, currentPlayer := 2, gameOver := false, winner := 0,
    aiEnabled := true }

/-- A classic full board with no uniform line. -/
def demoDrawBoard : Board := fun i => [1,2,1, 1,2,2, 2,1,1].getD i.val 0

/-- A state holding the full `demoDrawBoard` with the game not yet flagged
over. -/
def demoFullState : GameState :=
  { board := demoDrawBoard, currentPlayer := 1, gameOver := false, winner := 0,
    aiEnabled := true }

/-- The initial state with the game-over flag raised. -/
def demoOverState : GameState := { initState with gameOver := true }

/-! ### The claims -/

/-- Claim C1: `CheckWinner` scans the 8 fixed win lines and returns the
common mark of a line whose three cells all hold the same non-empty value,
and returns 0 (None) when no line qualifies; in particular, for each win line
`l` and each mark `m` in {1, 2}, the board with `l` uniformly set to `m` and
all other cells empty yields `checkWinner = m`. -/
theorem checkWinner_spec :
    (∀ b : Board,
      (checkWinner b ≠ 0 → ∃ l ∈ WINS, lineWin b l ∧ checkWinner b = b l.1) ∧
      ((∀ l ∈ WINS, ¬ lineWin b l) → checkWinner b = 0)) ∧
    (∀ l ∈ WINS, ∀ m : ℕ, m = 1 ∨ m = 2 → checkWinner (lineBoard l m) = m) := by
  refine ⟨fun b => ⟨fun h => checkWinnerAux_ne_zero h,
    fun h => checkWinnerAux_eq_zero_of h⟩, ?_⟩
  intro l hl m hm
  rcases hm with rfl | rfl <;> revert l <;> decide

/-- Witness for C1 at the top row filled with O, and at the empty board. -/
theorem checkWinner_spec_witness :
    checkWinner (lineBoard (0,1,2) 2) = 2 ∧ checkWinner (fun _ => 0) = 0 :=
  ⟨checkWinner_spec.2 (0,1,2) (by decide) 2 (Or.inr rfl),
    (checkWinner_spec.1 (fun _ => 0)).2 (by decide)⟩

/-- Claim C3: in every state reachable by the program's operations, the
game-over flag is set iff there is a winner or all 9 cells are non-empty, and
a non-zero winner implies some win line is uniform and non-empty. -/
theorem reachable_invariant (s : GameState) (h : Reachable s) :
    (s.gameOver = true ↔ (s.winner ≠ 0 ∨ ∀ i, s.board i ≠ 0)) ∧
    (s.winner ≠ 0 → ∃ l ∈ WINS, lineWin s.board l) := by
  obtain ⟨hw, hg⟩ := inv_reachable h
  constructor
  · rw [hg]
    simp only [Bool.or_eq_true, bne_iff_ne, ne_eq]
    rw [checkDraw_iff]
    constructor
    · rintro (h1 | ⟨-, h2⟩)
      · exact Or.inl h1
      · exact Or.inr h2
    · rintro (h1 | h2)
      · exact Or.inl h1
      · by_cases hz : s.winner = 0
        · refine Or.inr ⟨?_, h2⟩
          rw [← hw]
          exact hz
        · exact Or.inl hz
  · intro hnz
    rw [hw] at hnz
    obtain ⟨l, hl, hwl, -⟩ := checkWinnerAux_ne_zero hnz
    exact ⟨l, hl, hwl⟩

/-- Witness for C3 at the initial state. -/
theorem reachable_invariant_witness :
    (initState.gameOver = true ↔
      (initState.winner ≠ 0 ∨ ∀ i, initState.board i ≠ 0)) ∧
    (initState.winner ≠ 0 → ∃ l ∈ WINS, lineWin initState.board l) :=
  reachable_invariant initState Reachable.init

/-- Claim C4: a move intent on a finished game or an occupied cell leaves the
whole state unchanged (the disabled-button gating makes it a silent no-op). -/
theorem clickCell_illegal_noop (r : ℕ) (idx : Fin 9) (s : GameState)
    (h : s.gameOver = true ∨ s.board idx ≠ 0) :
    clickCell r idx s = s := by
  have hd : (s.gameOver || (s.board idx != 0) ||
      (s.aiEnabled && (s.currentPlayer != 1))) = true := by
    rcases h with h | h <;> simp [h]
  simp [clickCell, hd]

/-- Witness for C4: clicking cell 0 on a finished game changes nothing. -/
theorem clickCell_illegal_noop_witness :
    (demoOverState.gameOver = true ∨ demoOverState.board 0 ≠ 0) ∧
    clickCell 0 0 demoOverState = demoOverState :=
  ⟨Or.inl rfl, clickCell_illegal_noop 0 0 demoOverState (Or.inl rfl)⟩

/-- Claim C5: `CheckDraw` is true iff `CheckWinner` returns 0 and no cell is
empty; in particular a full board with no uniform non-empty line is reported
as a draw with no winner. -/
theorem checkDraw_spec :
    ∀ b : Board,
      (checkDraw b = true ↔ checkWinner b = 0 ∧ ∀ i, b i ≠ 0) ∧
      ((∀ i, b i ≠ 0) → (∀ l ∈ WINS, ¬ lineWin b l) →
        checkDraw b = true ∧ checkWinner b = 0) := by
  intro b
  refine ⟨checkDraw_iff b, fun hfull hno => ?_⟩
  have hw : checkWinner b = 0 := checkWinnerAux_eq_zero_of hno
  exact ⟨(checkDraw_iff b).mpr ⟨hw, hfull⟩, hw⟩

/-- Witness for C5 at a classic drawn board. -/
theorem checkDraw_spec_witness :
    checkDraw demoDrawBoard = true ∧ checkWinner demoDrawBoard = 0 :=
  (checkDraw_spec demoDrawBoard).2 (by decide) (by decide)

/-- Claim C7: `ResetGame` unconditionally restores the initial configuration
(all cells empty, player X to move, not over, no winner) and is idempotent. -/
theorem resetGame_spec :
    ∀ s : GameState,
      (∀ i, (resetGame s).board i = 0) ∧
      (resetGame s).currentPlayer = 1 ∧
      (resetGame s).gameOver = false ∧
      (resetGame s).winner = 0 ∧
      resetGame (resetGame s) = resetGame s :=
  fun _ => ⟨fun _ => rfl, rfl, rfl, rfl, rfl⟩

/-- Claim C9: on a board with zero empty cells, `AIMove` places no mark. -/
theorem aiMove_full_board (r : ℕ) (s : GameState) (h : ∀ i, s.board i ≠ 0) :
    (aiMove r s).board = s.board := by
  cases hg : s.gameOver
  · rw [aiMove_not_over r hg]
    exact aiBoard_full h r
  · simp [aiMove, hg]

/-- Witness for C9 at a full board. -/
theorem aiMove_full_board_witness :
    (∀ i, demoFullState.board i ≠ 0) ∧
    (aiMove 4 demoFullState).board = demoFullState.board :=
  ⟨by decide, aiMove_full_board 4 demoFullState (by decide)⟩

/-- Claim C10: `ResetGame` leaves the `aiEnabled` toggle unchanged. -/
theorem resetGame_preserves_aiEnabled :
    ∀ s : GameState, (resetGame s).aiEnabled = s.aiEnabled :=
  fun _ => rfl

/-- Claim C2: `AIMove` follows the strict priority win, then block, then some
empty cell; the mark is always a 2 written into a previously empty cell, and
a winning completion takes precedence even when a block is also available. -/
theorem aiMove_priority (r : ℕ) (s : GameState) (h : s.gameOver = false) :
    ((∃ l ∈ WINS, isPair s.board 2 l) →
      ∃ m : Fin 9, s.board m = 0 ∧
        (∃ l ∈ WINS, isPair s.board 2 l ∧ (m = l.1 ∨ m = l.2.1 ∨ m = l.2.2) ∧
          setCell s.board m 2 l.1 = 2 ∧ setCell s.board m 2 l.2.1 = 2 ∧
          setCell s.board m 2 l.2.2 = 2) ∧
        (aiMove r s).board = setCell s.board m 2) ∧
    ((¬ ∃ l ∈ WINS, isPair s.board 2 l) → (∃ l ∈ WINS, isPair s.board 1 l) →
      ∃ m : Fin 9, s.board m = 0 ∧
        (∃ l ∈ WINS, isPair s.board 1 l ∧ (m = l.1 ∨ m = l.2.1 ∨ m = l.2.2)) ∧
        (aiMove r s).board = setCell s.board m 2) ∧
    ((¬ ∃ l ∈ WINS, isPair s.board 2 l) → (¬ ∃ l ∈ WINS, isPair s.board 1 l) →
      (∃ i, s.board i = 0) →
      ∃ m : Fin 9, s.board m = 0 ∧ (aiMove r s).board = setCell s.board m 2) := by
  have hb : (aiMove r s).board = aiBoard r s.board := by
    rw [aiMove_not_over r h]
  refine ⟨?_, ?_, ?_⟩
  · intro hex
    obtain ⟨m, hm⟩ := fimAux_isSome hex
    have hm2 : findImmediateMove s.board 2 = some m := hm
    obtain ⟨hz, l, hl, hp, hmem⟩ := fimAux_some hm
    refine ⟨m, hz, ⟨l, hl, hp, hmem, ?_⟩, ?_⟩
    · obtain ⟨ha, hb2, hc⟩ := isPair_complete hp hz hmem
      exact ⟨ha, hb2, hc⟩
    · rw [hb]
      simp only [aiBoard, hm2]
  · intro hno hex1
    have h2none : findImmediateMove s.board 2 = none := by
      cases hf : findImmediateMove s.board 2 with
      | none => rfl
      | some m =>
        obtain ⟨-, l, hl, hp, -⟩ := fimAux_some hf
        exact absurd ⟨l, hl, hp⟩ hno
    obtain ⟨m, hm⟩ := fimAux_isSome hex1
    have hm1 : findImmediateMove s.board 1 = some m := hm
    obtain ⟨hz, l, hl, hp, hmem⟩ := fimAux_some hm
    refine ⟨m, hz, ⟨l, hl, hp, hmem⟩, ?_⟩
    rw [hb]
    simp only [aiBoard, h2none, hm1]
  · intro _ _ hne
    obtain ⟨i, hi⟩ := hne
    obtain ⟨j, hj, he⟩ := aiBoard_places r hi
    refine ⟨j, hj, ?_⟩
    rw [hb]
    exact he

/-- Witness for C2 at a board where O has a two-in-a-line on cells 0,1 and X
on cells 3,4: the win tier fires. -/
theorem aiMove_priority_witness :
    demoPairState.gameOver = false ∧
    (∃ m : Fin 9, demoPairState.board m = 0 ∧
      (∃ l ∈ WINS, isPair demoPairState.board 2 l ∧
        (m = l.1 ∨ m = l.2.1 ∨ m = l.2.2) ∧
        setCell demoPairState.board m 2 l.1 = 2 ∧
        setCell demoPairState.board m 2 l.2.1 = 2 ∧
        setCell demoPairState.board m 2 l.2.2 = 2) ∧
      (aiMove 0 demoPairState).board = setCell demoPairState.board m 2) :=
  ⟨rfl, (aiMove_priority 0 demoPairState rfl).1 (by decide)⟩

/-- Claim C6: with the AI enabled, a legal human move that does not end the
game makes the engine place exactly one O in the same call (so exactly two
cells change: the clicked one gets the X, one other empty cell gets the O),
and the turn is back with the human if the game is not over. -/
theorem clickCell_ai_response (r : ℕ) (idx : Fin 9) (s : GameState)
    (hai : s.aiEnabled = true) (hover : s.gameOver = false)
    (hcell : s.board idx = 0) (hcur : s.currentPlayer = 1)
    (hw : checkWinner (setCell s.board idx 1) = 0)
    (hd : checkDraw (setCell s.board idx 1) = false) :
    ∃ j : Fin 9, j ≠ idx ∧ s.board j = 0 ∧
      (clickCell r idx s).board = setCell (setCell s.board idx 1) j 2 ∧
      (clickCell r idx s).board idx = 1 ∧
      (clickCell r idx s).board j = 2 ∧
      (∀ k, k ≠ idx → k ≠ j → (clickCell r idx s).board k = s.board k) ∧
      ((clickCell r idx s).gameOver = false →
        (clickCell r idx s).currentPlayer = 1) := by
  have hclick : clickCell r idx s =
      aiMove r { s with
        board := setCell s.board idx 1,
        winner := 0,
        gameOver := false,
        currentPlayer := 2 } := by
    simp [clickCell, hover, hcell, hcur, hai, hw, hd]
  have hne : ∃ i, setCell s.board idx 1 i = 0 := by
    by_contra hc
    push_neg at hc
    have ht : checkDraw (setCell s.board idx 1) = true :=
      (checkDraw_iff _).mpr ⟨hw, hc⟩
    rw [ht] at hd
    cases hd
  obtain ⟨i, hi⟩ := hne
  obtain ⟨j, hj0, hjb⟩ := aiBoard_places r hi
  have hbidx : setCell s.board idx 1 idx = 1 := by
    simp [setCell]
  have hjne : j ≠ idx := by
    intro he
    rw [he, hbidx] at hj0
    cases hj0
  have hboard : (clickCell r idx s).board = setCell (setCell s.board idx 1) j 2 := by
    rw [hclick, aiMove_not_over r rfl]
    exact hjb
  refine ⟨j, hjne, ?_, hboard, ?_, ?_, ?_, ?_⟩
  · rw [← hj0]
    simp [setCell, Function.update_apply, hjne]
  · rw [hboard]
    simp [setCell, Function.update_apply, hjne, (Ne.symm hjne)]
  · rw [hboard]
    simp [setCell, Function.update_apply]
  · intro k hkidx hkj
    rw [hboard]
    simp [setCell, Function.update_apply, hkidx, hkj]
  · intro hgo
    rw [hclick] at hgo ⊢
    exact aiMove_back_to_human r rfl hgo

/-- Witness for C6: the first click of a fresh game with the AI on. -/
theorem clickCell_ai_response_witness :
    ∃ j : Fin 9, j ≠ 0 ∧ initState.board j = 0 ∧
      (clickCell 0 0 initState).board = setCell (setCell initState.board 0 1) j 2 ∧
      (clickCell 0 0 initState).board 0 = 1 ∧
      (clickCell 0 0 initState).board j = 2 ∧
      (∀ k, k ≠ 0 → k ≠ j → (clickCell 0 0 initState).board k = initState.board k) ∧
      ((clickCell 0 0 initState).gameOver = false →
        (clickCell 0 0 initState).currentPlayer = 1) :=
  clickCell_ai_response 0 0 initState rfl rfl rfl rfl (by decide) (by decide)

/-- Claim C8: the scan of the win lines is in the fixed order rows, columns,
diagonals; within the win and block tiers `FindImmediateMove` selects the
(unique) empty cell of the first qualifying line, deterministically. -/
theorem fim_scan_order :
    WINS = [(0,1,2), (3,4,5), (6,7,8),
            (0,3,6), (1,4,7), (2,5,8),
            (0,4,8), (2,4,6)] ∧
    (∀ (b : Board) (t : ℕ),
      findImmediateMove b t =
        (WINS.find? fun l => decide (isPair b t l)).map (firstEmpty b)) ∧
    (∀ (b : Board) (t : ℕ) (l : Line), isPair b t l →
      b (firstEmpty b l) = 0 ∧
      ∀ c : Fin 9, (c = l.1 ∨ c = l.2.1 ∨ c = l.2.2) → b c = 0 →
        c = firstEmpty b l) :=
  ⟨rfl, fun b t => fimAux_eq_find b t WINS,
    fun _ _ _ hp => ⟨firstEmpty_zero (isPair_empty hp), firstEmpty_unique hp⟩⟩

/-- Witness for C8 at the demo two-in-a-line board. -/
theorem fim_scan_order_witness :
    (findImmediateMove demoPairBoard 2 =
      (WINS.find? fun l => decide (isPair demoPairBoard 2 l)).map
        (firstEmpty demoPairBoard)) ∧
    (demoPairBoard (firstEmpty demoPairBoard (0,1,2)) = 0 ∧
      ∀ c : Fin 9, (c = 0 ∨ c = 1 ∨ c = 2) → demoPairBoard c = 0 →
        c = firstEmpty demoPairBoard (0,1,2)) :=
  ⟨fim_scan_order.2.1 demoPairBoard 2,
    fim_scan_order.2.2 demoPairBoard 2 (0,1,2) (by decide)⟩

end ClassGame
